import Mathlib

/-!
Verification of the ACTUNEO mortality/survival-function core.

This file gives a shallow embedding of `actuneo.mortality.mortality_table`
(`MortalityTable`) and `actuneo.mortality.survival_functions`
(`SurvivalFunctions`) and proves/refutes the frozen claims about them.

Modelling conventions:
* Python/NumPy floats are modelled as exact rationals (`ℚ`); the transcendental
  functions `np.exp`/`np.log` used by `tpx` are passed in as parameters
  `E L : ℝ → ℝ` and instantiated with `Real.exp`/`Real.log` in every theorem,
  so the definitions stay executable.
* A NumPy `NaN` is modelled as `Option.none`; `NaN`-propagating arithmetic is
  made explicit (`nanAdd`, `Option.map`).
* Python exceptions (`ValueError` from validation, `IndexError` from indexing
  an empty `np.where` result) are modelled with `Except Err`.
* Division is the total division of `ℚ`/`ℝ` (with `a / 0 = 0`); every theorem
  whose conclusion depends on a quotient carries hypotheses making the
  denominator nonzero, where the model agrees with IEEE arithmetic.
-/

namespace Actuneo

/-- Python exceptions observable in the mortality core: `ValueError` raised by
validation, and `IndexError` raised by indexing into an empty `np.where`
result. -/
inductive Err where
  | valueError : Err
  | indexError : Err
  deriving DecidableEq, Repr

/-- The mortality table with its derived arrays, as stored on the Python
object after `__init__` has run. -/
structure MortalityTable where
  ages : List ℤ
  qx : List ℚ
  px : List ℚ
  lx : List ℚ
  dx : List ℚ
  deriving DecidableEq, Repr

/-- `self.px = 1 - self.qx` (elementwise). -/
def pxOf (qx : List ℚ) : List ℚ := qx.map (fun q => 1 - q)

/-- `np.cumprod(px[::-1])[::-1]`: entry `i` is the product of `px[i..end]`. -/
def suffixProds (px : List ℚ) : List ℚ :=
  (List.range px.length).map (fun i => (px.drop i).prod)

/-- `self.lx = np.cumprod(self.px[::-1])[::-1]` followed by
`self.lx = self.lx / self.lx[0]`. -/
def lxOf (px : List ℚ) : List ℚ :=
  (suffixProds px).map (fun r => r / (suffixProds px).headD 0)

/-- `MortalityTable.__init__`: validates that `ages` and `qx` have the same
length and every `qx` lies in `[0,1]` (raising `ValueError` otherwise), then
computes `px`, `lx`, `dx`.  On an empty table the access `self.lx[0]` during
normalization raises `IndexError`. -/
def MortalityTable.init (ages : List ℤ) (qx : List ℚ) : Except Err MortalityTable :=
  if ages.length ≠ qx.length then .error .valueError
  else if ¬ (∀ q ∈ qx, 0 ≤ q ∧ q ≤ 1) then .error .valueError
  else if qx.isEmpty then .error .indexError
  else
    let px := pxOf qx
    let lx := lxOf px
    .ok { ages := ages, qx := qx, px := px, lx := lx,
          dx := List.zipWith (fun a b => a * b) lx qx }

/-- `np.where(self.ages == a)[0][0]`: the first index holding `a`, if any. -/
def firstIdx (ages : List ℤ) (a : ℤ) : Option ℕ :=
  ages.findIdx? (fun b => b == a)

/-- The scalar lookup at the heart of `get_qx`: the stored `qx` at the first
index of `a` in `ages`, or `NaN` (`none`) when `a` is absent. -/
def MortalityTable.lookupQx (mt : MortalityTable) (a : ℤ) : Option ℚ :=
  (firstIdx mt.ages a).map (fun ix => mt.qx.getD ix 0)

/-- The argument of `get_qx`/`get_px`: a Python scalar or a sequence. -/
inductive AgeArg where
  | scalar : ℤ → AgeArg
  | batch : List ℤ → AgeArg
  deriving DecidableEq, Repr

/-- The result of `get_qx`/`get_px`: a float (possibly `NaN`) or an array of
floats (possibly `NaN`). -/
inductive QxRes where
  | scalar : Option ℚ → QxRes
  | batch : List (Option ℚ) → QxRes
  deriving DecidableEq, Repr

/-- `MortalityTable.get_qx`: computes the per-age lookups, then returns a
scalar when the input was a scalar **or a sequence of length 1**, and the
array of results otherwise. -/
def MortalityTable.get_qx (mt : MortalityTable) : AgeArg → QxRes
  | .scalar a => .scalar (mt.lookupQx a)
  | .batch l =>
      if l.length = 1 then .scalar (mt.lookupQx (l.headD 0))
      else .batch (l.map mt.lookupQx)

/-- `MortalityTable.get_px`: `1 - get_qx(...)` with `NaN` propagated. -/
def MortalityTable.get_px (mt : MortalityTable) (a : AgeArg) : QxRes :=
  match mt.get_qx a with
  | .scalar v => .scalar (v.map (fun q => 1 - q))
  | .batch l => .batch (l.map (Option.map (fun q => 1 - q)))

/-- `MortalityTable.life_expectancy`: raises `ValueError` for an untabulated
age; otherwise `0.5` plus the sum of the `lx` entries strictly after the
age's index (`0.0` when the age is the last entry). -/
def MortalityTable.life_expectancy (mt : MortalityTable) (age : ℤ) : Except Err ℚ :=
  match firstIdx mt.ages age with
  | none => .error .valueError
  | some ix =>
    let remaining := mt.lx.drop ix
    if remaining.length ≤ 1 then .ok 0
    else .ok (1/2 + (remaining.drop 1).sum)

/-- The survival-function engine: a mortality table plus an interest rate. -/
structure SurvivalFunctions where
  mt : MortalityTable
  i : ℚ
  deriving DecidableEq, Repr

/-- `self.v = 1 / (1 + interest_rate)`. -/
def SurvivalFunctions.v (sf : SurvivalFunctions) : ℚ := 1 / (1 + sf.i)

/-- `SurvivalFunctions.npx`.  For `x + n` beyond the last age: the code takes
`np.where(ages <= x)[0]` (all indices with age ≤ x), returns `0.0` when there
is none, else uses its **last** element `last_idx` and returns
`lx[last_idx] * px[last_idx]^(x+n-ages[last_idx]) / lx[np.where(ages==x)[0][0]]`
— the final lookup raising `IndexError` when `x` is untabulated.  Within the
table it returns the product of `px` over `[index(x), index(x+n))`, or `0.0`
when either endpoint is untabulated. -/
def SurvivalFunctions.npx (sf : SurvivalFunctions) (x n : ℤ) : Except Err ℚ :=
  if n < 0 then .ok 0
  else if n = 0 then .ok 1
  else if x + n > sf.mt.ages.getLastD 0 then
    let leIdxs := (List.range sf.mt.ages.length).filter (fun j => sf.mt.ages.getD j 0 ≤ x)
    match leIdxs.getLast? with
    | none => .ok 0
    | some lastIdx =>
      let remaining := x + n - sf.mt.ages.getD lastIdx 0
      let pxRemaining := (sf.mt.px.getD lastIdx 0) ^ remaining.toNat
      match firstIdx sf.mt.ages x with
      | none => .error .indexError
      | some ix => .ok (sf.mt.lx.getD lastIdx 0 * pxRemaining / sf.mt.lx.getD ix 0)
  else
    match firstIdx sf.mt.ages x, firstIdx sf.mt.ages (x + n) with
    | some s, some e => .ok ((sf.mt.px.drop s).take (e - s)).prod
    | _, _ => .ok 0

/-- `nqx(x, n) = 1 - npx(x, n)` (propagating any exception). -/
def SurvivalFunctions.nqx (sf : SurvivalFunctions) (x n : ℤ) : Except Err ℚ :=
  (sf.npx x n).map (fun p => 1 - p)

/-- `SurvivalFunctions.tpx` with the exponential and logarithm passed in as
`E` and `L` (instantiated with `Real.exp`/`Real.log` in the theorems).  The
input `t` is a float, hence rational.  A `NaN` result (from a `get_qx` miss)
is `none`. -/
def SurvivalFunctions.tpx (sf : SurvivalFunctions) (E L : ℝ → ℝ) (x : ℤ) (t : ℚ) :
    Except Err (Option ℝ) :=
  if t = 0 then .ok (some 1)
  else if t < 0 then .ok (some 0)
  else
    let n : ℤ := ⌊t⌋
    let frac : ℚ := t - n
    (sf.npx x n).bind (fun nps =>
      if n + x ≥ sf.mt.ages.getLastD 0 then
        let lastAge := sf.mt.ages.getLastD 0
        if x + n ≥ lastAge then
          let remainingYears : ℚ := t - (lastAge - x)
          match sf.mt.lookupQx lastAge with
          | some qLast =>
            let mu : ℝ := -(L (1 - (qLast : ℝ)))
            .ok (some ((nps : ℝ) * E (-(mu * (remainingYears : ℝ)))))
          | none => .ok none
        else .ok (some (nps : ℝ))
      else
        match sf.mt.lookupQx (x + n) with
        | some qNext => .ok (some ((nps : ℝ) * (1 - (frac : ℝ) * (qNext : ℝ))))
        | none => .ok none)

/-- `NaN`-propagating addition of floats. -/
def nanAdd : Option ℝ → Option ℝ → Option ℝ
  | some a, some b => some (a + b)
  | _, _ => none

/-- The shared loop of `annuity_due`: `sum_{t=0}^{T-1} v^t * tpx(x, t)`. -/
def SurvivalFunctions.annuityLoop (sf : SurvivalFunctions) (E L : ℝ → ℝ) (x : ℤ) (T : ℕ) :
    Except Err (Option ℝ) :=
  (List.range T).foldlM
    (fun acc (t : ℕ) =>
      (sf.tpx E L x (t : ℚ)).map
        (fun p => nanAdd acc (p.map (fun pr => ((sf.v : ℝ)) ^ t * pr))))
    (some 0)

/-- `SurvivalFunctions.annuity_due`: whole-life uses
`T = len(ages) - np.where(ages == x)[0][0]` (an `IndexError` when `x` is
untabulated); a term annuity loops `t` over `range(n)`. -/
def SurvivalFunctions.annuity_due (sf : SurvivalFunctions) (E L : ℝ → ℝ) (x : ℤ)
    (n : Option ℤ) : Except Err (Option ℝ) :=
  match n with
  | none =>
    match firstIdx sf.mt.ages x with
    | none => .error .indexError
    | some ix => sf.annuityLoop E L x (sf.mt.ages.length - ix)
  | some m => sf.annuityLoop E L x m.toNat

/-- `annuity_immediate(x, n) = annuity_due(x, n) - 1.0`. -/
def SurvivalFunctions.annuity_immediate (sf : SurvivalFunctions) (E L : ℝ → ℝ) (x : ℤ)
    (n : Option ℤ) : Except Err (Option ℝ) :=
  (sf.annuity_due E L x n).map (fun o => o.map (fun a => a - 1))

/-- The per-year death-probability approximation inside `assurance`:
`1 - npx(x, t)/npx(x, t-1)` for `t > 1`, else `1 - npx(x, 1)`. -/
def SurvivalFunctions.qTerm (sf : SurvivalFunctions) (x : ℤ) (t : ℕ) : Except Err ℚ :=
  if t > 1 then
    (sf.npx x t).bind (fun a => (sf.npx x (t - 1 : ℕ)).map (fun b => 1 - a / b))
  else
    (sf.npx x 1).map (fun a => 1 - a)

/-- The shared loop of `assurance`:
`sum_{t=1}^{tmax} v^t * min(qTerm t, 1)`. -/
def SurvivalFunctions.assuranceSum (sf : SurvivalFunctions) (x : ℤ) (tmax : ℕ) :
    Except Err ℚ :=
  (List.range tmax).foldlM
    (fun acc t => (sf.qTerm x (t + 1)).map (fun q => acc + sf.v ^ (t + 1) * min q 1))
    0

/-- `SurvivalFunctions.assurance`: whole-life uses
`max_t = len(ages) - np.where(ages == x)[0][0] - 1` (an `IndexError` when `x`
is untabulated); a term assurance loops `t` over `range(1, n+1)`. -/
def SurvivalFunctions.assurance (sf : SurvivalFunctions) (x : ℤ) (n : Option ℤ) :
    Except Err ℚ :=
  match n with
  | none =>
    match firstIdx sf.mt.ages x with
    | none => .error .indexError
    | some ix => sf.assuranceSum x (sf.mt.ages.length - ix - 1)
  | some m => sf.assuranceSum x m.toNat

/-- `net_single_premium(x, n) = assurance(x, n)`. -/
def SurvivalFunctions.net_single_premium (sf : SurvivalFunctions) (x : ℤ) (n : Option ℤ) :
    Except Err ℚ :=
  sf.assurance x n

/-- The life-expectancy formula exactly as the specification words it:
`0.5 + sum(lx[age_idx+1 .. end] / lx[age_idx])`, the sum of **forward survival
ratios**; `0` at the last tabulated age; a lookup error when absent.  Written
only to be compared with `MortalityTable.life_expectancy` above. -/
def lifeExpectancySpec (mt : MortalityTable) (age : ℤ) : Except Err ℚ :=
  match firstIdx mt.ages age with
  | none => .error .valueError
  | some ix =>
    let remaining := mt.lx.drop ix
    if remaining.length ≤ 1 then .ok 0
    else .ok (1/2 + ((remaining.drop 1).map (fun w => w / mt.lx.getD ix 0)).sum)

/-! ### Helper lemmas about the lookups and derived arrays -/

theorem firstIdx_eq_none_iff {ages : List ℤ} {a : ℤ} :
    firstIdx ages a = none ↔ a ∉ ages := by
  unfold firstIdx
  rw [List.findIdx?_eq_none_iff]
  constructor
  · intro h ha
    have := h a ha
    simp at this
  · intro h x hx
    simp only [beq_eq_false_iff_ne, ne_eq]
    rintro rfl
    exact h hx

theorem firstIdx_isSome_of_mem {ages : List ℤ} {a : ℤ} (h : a ∈ ages) :
    ∃ i, firstIdx ages a = some i := by
  rcases ho : firstIdx ages a with _ | i
  · exact absurd (firstIdx_eq_none_iff.mp ho) (by simpa using h)
  · exact ⟨i, rfl⟩

/-- A run of consecutive integer ages `a0, a0+1, …, a0+m-1`. -/
def consecAges (a0 : ℤ) (m : ℕ) : List ℤ :=
  (List.range m).map (fun (j : ℕ) => a0 + (j : ℤ))

theorem consecAges_length (a0 : ℤ) (m : ℕ) : (consecAges a0 m).length = m := by
  rw [consecAges, List.length_map, List.length_range]

theorem consecAges_getElem (a0 : ℤ) {m i : ℕ} (h : i < (consecAges a0 m).length) :
    (consecAges a0 m)[i] = a0 + i := by
  simp only [consecAges, List.getElem_map, List.getElem_range]

theorem consecAges_getD (a0 : ℤ) {m i : ℕ} (h : i < m) :
    (consecAges a0 m).getD i 0 = a0 + i := by
  rw [List.getD_eq_getElem _ _ (by simpa [consecAges_length])]
  exact consecAges_getElem a0 _

theorem mem_consecAges {a0 x : ℤ} {m : ℕ} :
    x ∈ consecAges a0 m ↔ a0 ≤ x ∧ x < a0 + m := by
  constructor
  · intro hx
    rw [consecAges, List.mem_map] at hx
    obtain ⟨j, hj, hfx⟩ := hx
    rw [List.mem_range] at hj
    omega
  · intro h
    rw [consecAges, List.mem_map]
    refine ⟨(x - a0).toNat, ?_, ?_⟩
    · rw [List.mem_range]
      omega
    · omega

theorem firstIdx_consecAges {a0 : ℤ} {m k : ℕ} (hk : k < m) :
    firstIdx (consecAges a0 m) (a0 + k) = some k := by
  unfold firstIdx
  rw [List.findIdx?_eq_some_iff_getElem]
  refine ⟨by simpa [consecAges_length], by simp [consecAges_getElem], ?_⟩
  intro j hj
  rw [consecAges_getElem]
  simp only [beq_iff_eq, Bool.not_eq_true, beq_eq_false_iff_ne, ne_eq]
  omega

theorem consecAges_getLastD {a0 : ℤ} {m : ℕ} (hm : m ≠ 0) :
    (consecAges a0 m).getLastD 0 = a0 + (m - 1 : ℕ) := by
  obtain ⟨mm, rfl⟩ : ∃ mm, m = mm + 1 := ⟨m - 1, by omega⟩
  simp [consecAges, List.range_succ]

theorem range_filter_getLast {m k : ℕ} (p : ℕ → Bool) (hk : k < m)
    (hp : ∀ j, j < m → (p j = true ↔ j ≤ k)) :
    ((List.range m).filter p).getLast? = some k := by
  induction m with
  | zero => omega
  | succ mm ih =>
    rw [List.range_succ, List.filter_append]
    by_cases hkm : k = mm
    · subst hkm
      have hpk : p k = true := (hp k (by omega)).mpr le_rfl
      simp [List.filter, hpk, List.getLast?_concat]
    · have hklt : k < mm := by omega
      have hpm : p mm = false := by
        rcases hb : p mm with _ | _
        · rfl
        · exact absurd ((hp mm (by omega)).mp hb) (by omega)
      simp only [List.filter, hpm, List.append_nil]
      exact ih hklt (fun j hj => hp j (by omega))

theorem range_filter_nil {m : ℕ} (p : ℕ → Bool) (hp : ∀ j, j < m → p j = false) :
    (List.range m).filter p = [] := by
  rw [List.filter_eq_nil_iff]
  intro a ha
  rw [List.mem_range] at ha
  simp [hp a ha]

theorem init_ok_elim {ages : List ℤ} {qx : List ℚ} {mt : MortalityTable}
    (h : MortalityTable.init ages qx = .ok mt) :
    mt.ages = ages ∧ mt.qx = qx ∧ mt.px = pxOf qx ∧ mt.lx = lxOf (pxOf qx) ∧
      mt.dx = List.zipWith (fun a b => a * b) (lxOf (pxOf qx)) qx ∧
      ages.length = qx.length ∧ (∀ q ∈ qx, 0 ≤ q ∧ q ≤ 1) ∧ qx ≠ [] := by
  unfold MortalityTable.init at h
  split at h
  · exact absurd h (by simp)
  · split at h
    · exact absurd h (by simp)
    · split at h
      · exact absurd h (by simp)
      · rename_i h1 h2 h3
        cases h
        refine ⟨rfl, rfl, rfl, rfl, rfl, by omega, not_not.mp h2, ?_⟩
        simpa [List.isEmpty_iff] using h3

theorem init_ok_of_valid (ages : List ℤ) (qx : List ℚ)
    (hlen : ages.length = qx.length) (hq : ∀ q ∈ qx, 0 ≤ q ∧ q ≤ 1) (hne : qx ≠ []) :
    MortalityTable.init ages qx =
      .ok { ages := ages, qx := qx, px := pxOf qx, lx := lxOf (pxOf qx),
            dx := List.zipWith (fun a b => a * b) (lxOf (pxOf qx)) qx } := by
  unfold MortalityTable.init
  rw [if_neg (by omega), if_neg (by simpa using hq), if_neg (by simpa [List.isEmpty_iff])]

theorem pxOf_length (qx : List ℚ) : (pxOf qx).length = qx.length := by
  rw [pxOf, List.length_map]

theorem suffixProds_length (px : List ℚ) : (suffixProds px).length = px.length := by
  rw [suffixProds, List.length_map, List.length_range]

theorem lxOf_length (px : List ℚ) : (lxOf px).length = px.length := by
  rw [lxOf, List.length_map, suffixProds_length]

theorem pxOf_getD {qx : List ℚ} {i : ℕ} (h : i < qx.length) :
    (pxOf qx).getD i 0 = 1 - qx.getD i 0 := by
  rw [List.getD_eq_getElem _ _ (by rwa [pxOf_length]), List.getD_eq_getElem _ _ h]
  simp [pxOf]

theorem suffixProds_getD {px : List ℚ} {i : ℕ} (h : i < px.length) :
    (suffixProds px).getD i 0 = (px.drop i).prod := by
  rw [List.getD_eq_getElem _ _ (by rwa [suffixProds_length])]
  simp [suffixProds]

theorem suffixProds_headD {px : List ℚ} (h : px ≠ []) :
    (suffixProds px).headD 0 = px.prod := by
  have hlen : 0 < px.length := List.length_pos.mpr h
  have : (suffixProds px).headD 0 = (suffixProds px).getD 0 0 := by
    cases hs : suffixProds px <;> rfl
  rw [this, suffixProds_getD hlen, List.drop_zero]

theorem lxOf_getD {px : List ℚ} {i : ℕ} (h : i < px.length) :
    (lxOf px).getD i 0 = (px.drop i).prod / px.prod := by
  have hne : px ≠ [] := by
    intro hnil
    rw [hnil] at h
    simp at h
  rw [lxOf, List.getD_eq_getElem _ _ (by rw [List.length_map, suffixProds_length]; exact h)]
  rw [List.getElem_map, suffixProds_headD hne]
  rw [← List.getD_eq_getElem _ 0 (by rwa [suffixProds_length]), suffixProds_getD h]

theorem prod_le_one_of_mem {l : List ℚ} (h : ∀ a ∈ l, 0 ≤ a ∧ a ≤ 1) : l.prod ≤ 1 := by
  induction l with
  | nil => simp
  | cons a l ih =>
    rw [List.prod_cons]
    have ha := h a (List.mem_cons_self a l)
    have hl := ih (fun b hb => h b (List.mem_cons_of_mem a hb))
    have h0 : 0 ≤ l.prod := List.prod_nonneg (fun b hb => (h b (List.mem_cons_of_mem a hb)).1)
    exact mul_le_one₀ ha.2 h0 hl

theorem pxOf_mem_pos {qx : List ℚ} (hq : ∀ q ∈ qx, 0 ≤ q ∧ q < 1) :
    ∀ p ∈ pxOf qx, 0 < p ∧ p ≤ 1 := by
  intro p hp
  rw [pxOf, List.mem_map] at hp
  obtain ⟨q, hq', rfl⟩ := hp
  have := hq q hq'
  constructor <;> linarith [this.1, this.2]

theorem pxOf_mem_bounds {qx : List ℚ} (hq : ∀ q ∈ qx, 0 ≤ q ∧ q ≤ 1) :
    ∀ p ∈ pxOf qx, 0 ≤ p ∧ p ≤ 1 := by
  intro p hp
  rw [pxOf, List.mem_map] at hp
  obtain ⟨q, hq', rfl⟩ := hp
  have := hq q hq'
  constructor <;> linarith [this.1, this.2]

theorem lxOf_getD_pos {qx : List ℚ} (hq : ∀ q ∈ qx, 0 ≤ q ∧ q < 1) {k : ℕ}
    (hk : k < (pxOf qx).length) : 0 < (lxOf (pxOf qx)).getD k 0 := by
  rw [lxOf_getD hk]
  apply div_pos
  · exact List.prod_pos (fun a ha => (pxOf_mem_pos hq a (List.mem_of_mem_drop ha)).1)
  · exact List.prod_pos (fun a ha => (pxOf_mem_pos hq a ha).1)

/-- `npx` within the table, for a consecutive-age table: the product of the
`px` slice. -/
theorem npx_inTable {sf : SurvivalFunctions} {a0 : ℤ} {m : ℕ} {qx : List ℚ}
    (hinit : MortalityTable.init (consecAges a0 m) qx = .ok sf.mt)
    {k : ℕ} (hk : k < m) {n : ℤ} (hn : 0 ≤ n)
    (hxn : (k : ℤ) + n ≤ (m : ℤ) - 1) :
    sf.npx (a0 + k) n = .ok ((sf.mt.px.drop k).take n.toNat).prod := by
  obtain ⟨hA, hQ, hP, hL, hD, hlen, hq, hne⟩ := init_ok_elim hinit
  have hm0 : m ≠ 0 := by omega
  rcases eq_or_lt_of_le hn with hn0 | hnpos
  · rw [SurvivalFunctions.npx, if_neg (by omega), if_pos (by omega)]
    rw [← hn0]
    simp
  · rw [SurvivalFunctions.npx, if_neg (by omega), if_neg (by omega)]
    rw [hA, consecAges_getLastD hm0, if_neg (by omega)]
    have h1 : firstIdx (consecAges a0 m) (a0 + k) = some k := firstIdx_consecAges hk
    have heq : (a0 + k) + n = a0 + ((k + n.toNat : ℕ) : ℤ) := by push_cast; omega
    have h2 : firstIdx (consecAges a0 m) ((a0 + k) + n) = some (k + n.toNat) := by
      rw [heq]
      exact firstIdx_consecAges (by omega)
    rw [h1, h2]
    have hsub : k + n.toNat - k = n.toNat := by omega
    simp [hsub]

/-- `npx` past the table's maximum age, for a tabulated starting age `x` on a
consecutive-age table with all `qx < 1`: the survivor-ratio factor cancels and
the result is `px[x] ^ n` — the one-year survival probability **at `x`
itself** held constant, not the last tabulated one. -/
theorem npx_beyond {sf : SurvivalFunctions} {a0 : ℤ} {m : ℕ} {qx : List ℚ}
    (hinit : MortalityTable.init (consecAges a0 m) qx = .ok sf.mt)
    (hq1 : ∀ q ∈ qx, 0 ≤ q ∧ q < 1)
    {k : ℕ} (hk : k < m) {n : ℤ} (hn : 0 < n)
    (hbeyond : (m : ℤ) - 1 < (k : ℤ) + n) :
    sf.npx (a0 + k) n = .ok ((sf.mt.px.getD k 0) ^ n.toNat) := by
  obtain ⟨hA, hQ, hP, hL, hD, hlen, hq, hne⟩ := init_ok_elim hinit
  have hm0 : m ≠ 0 := by omega
  have hqlen : qx.length = m := by
    rw [consecAges_length] at hlen
    omega
  rw [SurvivalFunctions.npx, if_neg (by omega), if_neg (by omega)]
  rw [hA, consecAges_getLastD hm0, if_pos (by omega)]
  rw [consecAges_length]
  have hfilter :
      ((List.range m).filter (fun j => decide ((consecAges a0 m).getD j 0 ≤ a0 + k))).getLast?
        = some k := by
    apply range_filter_getLast _ hk
    intro j hj
    rw [decide_eq_true_iff, consecAges_getD a0 hj]
    omega
  have h1 : firstIdx (consecAges a0 m) (a0 + k) = some k := firstIdx_consecAges hk
  have hlx : sf.mt.lx.getD k 0 ≠ 0 := by
    rw [hL]
    exact ne_of_gt (lxOf_getD_pos hq1 (by rw [pxOf_length]; omega))
  have hrem : (a0 + (k : ℤ) + n - (a0 + (k : ℤ))) = n := by omega
  simp only [hfilter, h1, consecAges_getD a0 hk, hrem]
  rw [mul_div_cancel_left₀ _ hlx]

/-- `npx` never raises when the starting age `x` is tabulated. -/
theorem npx_isOk {sf : SurvivalFunctions} {x : ℤ} (hx : x ∈ sf.mt.ages) (n : ℤ) :
    ∃ r, sf.npx x n = .ok r := by
  obtain ⟨ix, hix⟩ := firstIdx_isSome_of_mem hx
  rw [SurvivalFunctions.npx]
  split_ifs with h1 h2 h3
  · exact ⟨0, rfl⟩
  · exact ⟨1, rfl⟩
  · rcases hls : ((List.range sf.mt.ages.length).filter
        (fun j => decide (sf.mt.ages.getD j 0 ≤ x))).getLast? with _ | li
    · exact ⟨0, by simp only [hls]⟩
    · exact ⟨_, by simp only [hls, hix]; rfl⟩
  · rcases he : firstIdx sf.mt.ages (x + n) with _ | e
    · exact ⟨0, by simp only [hix, he]⟩
    · exact ⟨_, by simp only [hix, he]; rfl⟩

/-- The value of `npx` (meaningful whenever `npx` returns normally). -/
def npxVal (sf : SurvivalFunctions) (x n : ℤ) : ℚ :=
  match sf.npx x n with
  | .ok r => r
  | .error _ => 0

theorem npxVal_eq {sf : SurvivalFunctions} {x n : ℤ} {r : ℚ}
    (h : sf.npx x n = .ok r) : npxVal sf x n = r := by
  rw [npxVal, h]

theorem npx_eq_ok_npxVal {sf : SurvivalFunctions} {x : ℤ} (hx : x ∈ sf.mt.ages) (n : ℤ) :
    sf.npx x n = .ok (npxVal sf x n) := by
  obtain ⟨r, hr⟩ := npx_isOk hx n
  rw [hr, npxVal_eq hr]

/-- `tpx` never raises when the starting age `x` is tabulated. -/
theorem tpx_isOk {sf : SurvivalFunctions} (E L : ℝ → ℝ) {x : ℤ} (hx : x ∈ sf.mt.ages)
    (t : ℚ) : ∃ r, sf.tpx E L x t = .ok r := by
  rw [SurvivalFunctions.tpx]
  split_ifs with h1 h2
  · exact ⟨some 1, rfl⟩
  · exact ⟨some 0, rfl⟩
  · obtain ⟨r, hr⟩ := npx_isOk hx ⌊t⌋
    simp only [hr, Except.bind]
    split_ifs with h3 h4
    · rcases hl : sf.mt.lookupQx (sf.mt.ages.getLastD 0) with _ | q
      · exact ⟨none, by simp only [hl]⟩
      · exact ⟨_, by simp only [hl]; rfl⟩
    · exact ⟨_, rfl⟩
    · rcases hl : sf.mt.lookupQx (x + ⌊t⌋) with _ | q
      · exact ⟨none, by simp only [hl]⟩
      · exact ⟨_, by simp only [hl]; rfl⟩

theorem foldlM_isOk {α β : Type} (f : β → α → Except Err β) (l : List α) (b : β)
    (h : ∀ b' a, a ∈ l → ∃ c, f b' a = .ok c) : ∃ c, l.foldlM f b = .ok c := by
  induction l generalizing b with
  | nil => exact ⟨b, rfl⟩
  | cons a l ih =>
    obtain ⟨c, hc⟩ := h b a (List.mem_cons_self a l)
    rw [List.foldlM_cons, hc]
    obtain ⟨d, hd⟩ := ih c (fun b' a' ha' => h b' a' (List.mem_cons_of_mem a ha'))
    exact ⟨d, by simpa [Except.bind] using hd⟩

theorem annuityLoop_isOk {sf : SurvivalFunctions} (E L : ℝ → ℝ) {x : ℤ}
    (hx : x ∈ sf.mt.ages) (T : ℕ) : ∃ r, sf.annuityLoop E L x T = .ok r := by
  apply foldlM_isOk
  intro acc t _
  obtain ⟨r, hr⟩ := tpx_isOk E L hx (t : ℚ)
  exact ⟨_, by rw [hr, Except.map]⟩

/-- The value of `qTerm` (meaningful whenever `qTerm` returns normally). -/
def qTermVal (sf : SurvivalFunctions) (x : ℤ) (t : ℕ) : ℚ :=
  if t > 1 then 1 - npxVal sf x t / npxVal sf x (t - 1 : ℕ) else 1 - npxVal sf x 1

theorem qTerm_eq_val {sf : SurvivalFunctions} {x : ℤ} (hx : x ∈ sf.mt.ages) (t : ℕ) :
    sf.qTerm x t = .ok (qTermVal sf x t) := by
  rw [SurvivalFunctions.qTerm, qTermVal]
  split_ifs with h1
  · rw [npx_eq_ok_npxVal hx (t : ℤ), npx_eq_ok_npxVal hx ((t - 1 : ℕ) : ℤ)]
    rfl
  · rw [npx_eq_ok_npxVal hx 1]
    rfl

theorem assuranceSum_eq {sf : SurvivalFunctions} {x : ℤ} (hx : x ∈ sf.mt.ages) (tmax : ℕ) :
    sf.assuranceSum x tmax =
      .ok (∑ t ∈ Finset.range tmax, sf.v ^ (t + 1) * min (qTermVal sf x (t + 1)) 1) := by
  induction tmax with
  | zero => rfl
  | succ T ih =>
    rw [SurvivalFunctions.assuranceSum, List.range_succ, List.foldlM_append,
      ← SurvivalFunctions.assuranceSum, ih]
    simp only [List.foldlM_cons, List.foldlM_nil, qTerm_eq_val hx, Except.map,
      Finset.sum_range_succ]
    rfl

theorem prod_take_antitone {l : List ℚ} (hb : ∀ a ∈ l, 0 ≤ a ∧ a ≤ 1) {k k' : ℕ}
    (h : k ≤ k') : (l.take k').prod ≤ (l.take k).prod := by
  induction k' with
  | zero =>
    have hk0 : k = 0 := by omega
    subst hk0
    exact le_rfl
  | succ d ih =>
    rcases Nat.lt_or_ge k (d + 1) with hlt | hge
    · have step : (l.take (d + 1)).prod ≤ (l.take d).prod := by
        rcases Nat.lt_or_ge d l.length with hd | hd
        · rw [List.prod_take_succ l d hd]
          have hel := hb l[d] (l.getElem_mem hd)
          have h0 : 0 ≤ (l.take d).prod :=
            List.prod_nonneg (fun a ha => (hb a (List.take_subset _ _ ha)).1)
          calc (l.take d).prod * l[d] ≤ (l.take d).prod * 1 :=
                mul_le_mul_of_nonneg_left hel.2 h0
            _ = (l.take d).prod := mul_one _
        · rw [List.take_of_length_le (by omega), List.take_of_length_le hd]
      exact le_trans step (ih (by omega))
    · have hk : k = d + 1 := by omega
      subst hk
      exact le_rfl

/-- For a consecutive-age table and tabulated `x`, with `x + t` still within
the table, the per-year death probability used by `assurance` is the
tabulated `qx` at age `x + t - 1`, hence nonnegative. -/
theorem qTermVal_nonneg_inTable {sf : SurvivalFunctions} {a0 : ℤ} {m : ℕ} {qx : List ℚ}
    (hinit : MortalityTable.init (consecAges a0 m) qx = .ok sf.mt)
    (hq1 : ∀ q ∈ qx, 0 ≤ q ∧ q < 1)
    {k : ℕ} (hk : k < m) {t : ℕ} (ht : 1 ≤ t) (htm : k + t < m) :
    0 ≤ qTermVal sf (a0 + k) t := by
  obtain ⟨hA, hQ, hP, hL, hD, hlen, hq, hne⟩ := init_ok_elim hinit
  have hqlen : qx.length = m := by
    rw [consecAges_length] at hlen
    omega
  have hpxlen : sf.mt.px.length = m := by rw [hP, pxOf_length, hqlen]
  have hdroplen : (sf.mt.px.drop k).length = m - k := by
    rw [List.length_drop, hpxlen]
  have hPval : ∀ j : ℕ, (j : ℤ) + k ≤ (m : ℤ) - 1 →
      npxVal sf (a0 + k) j = ((sf.mt.px.drop k).take j).prod := by
    intro j hj
    have := npx_inTable (n := (j : ℤ)) hinit hk (by omega) (by omega)
    have hjn : ((j : ℤ)).toNat = j := by omega
    rw [npxVal_eq this, hjn]
  have hbdrop : ∀ a ∈ sf.mt.px.drop k, 0 ≤ a ∧ a ≤ 1 := by
    intro a ha
    have : a ∈ pxOf qx := by
      rw [← hP]
      exact List.drop_subset _ _ ha
    exact pxOf_mem_bounds hq a this
  rw [qTermVal]
  split_ifs with h1
  · -- t ≥ 2: the ratio of successive in-table products is the px entry
    have hPt := hPval t (by omega)
    have hPt1 := hPval (t - 1) (by omega)
    have hidx : t - 1 < (sf.mt.px.drop k).length := by omega
    have hsucc : (t - 1) + 1 = t := by omega
    have hprod : ((sf.mt.px.drop k).take t).prod =
        ((sf.mt.px.drop k).take (t - 1)).prod * (sf.mt.px.drop k)[t - 1] := by
      have h2 := List.prod_take_succ (sf.mt.px.drop k) (t - 1) hidx
      rw [hsucc] at h2
      exact h2
    have hpos : 0 < ((sf.mt.px.drop k).take (t - 1)).prod := by
      apply List.prod_pos
      intro a ha
      have : a ∈ pxOf qx := by
        rw [← hP]
        exact List.drop_subset _ _ (List.take_subset _ _ ha)
      exact (pxOf_mem_pos hq1 a this).1
    rw [hPt, hPt1, hprod, mul_div_cancel_left₀ _ (ne_of_gt hpos)]
    have := hbdrop _ ((sf.mt.px.drop k).getElem_mem hidx)
    linarith [this.2]
  · -- t = 1: npx(x, 1) ≤ 1
    have ht1 : t = 1 := by omega
    have hP1 := hPval 1 (by omega)
    have h1le : ((sf.mt.px.drop k).take 1).prod ≤ 1 :=
      prod_le_one_of_mem (fun a ha => hbdrop a (List.take_subset _ _ ha))
    push_cast at hP1
    have : npxVal sf (a0 + k) 1 ≤ 1 := by rw [hP1]; exact h1le
    linarith

theorem getLastD_mem {l : List ℤ} (h : l ≠ []) : l.getLastD 0 ∈ l := by
  rw [List.getLastD_eq_getLast?, List.getLast?_eq_getLast _ h, Option.getD_some]
  exact List.getLast_mem h

/-! ### The claims -/

/-- C7: `MortalityTable` construction raises a validation error iff the
`ages` and `qx` sequences have different lengths or some `qx` value lies
outside `[0,1]`; on success the derived arrays `px`, `lx`, `dx` are computed
eagerly (they are fields of the returned immutable value, fixed at
construction). -/
theorem claim_C7 (ages : List ℤ) (qx : List ℚ) :
    (MortalityTable.init ages qx = .error .valueError ↔
      ages.length ≠ qx.length ∨ ∃ q ∈ qx, q < 0 ∨ 1 < q) ∧
    (∀ mt, MortalityTable.init ages qx = .ok mt →
      mt.ages = ages ∧ mt.qx = qx ∧ mt.px = pxOf qx ∧ mt.lx = lxOf (pxOf qx) ∧
        mt.dx = List.zipWith (fun a b => a * b) (lxOf (pxOf qx)) qx) := by
  constructor
  · constructor
    · intro h
      unfold MortalityTable.init at h
      split at h
      · left
        assumption
      · split at h
        · right
          rename_i h2
          push_neg at h2
          obtain ⟨q, hq, hq2⟩ := h2
          refine ⟨q, hq, ?_⟩
          rcases lt_or_le q 0 with hneg | hpos
          · exact Or.inl hneg
          · exact Or.inr (hq2 hpos)
        · split at h
          · cases h
          · cases h
    · intro h
      unfold MortalityTable.init
      rcases h with h | ⟨q, hq, hqout⟩
      · rw [if_pos h]
      · by_cases h1 : ages.length ≠ qx.length
        · rw [if_pos h1]
        · rw [if_neg h1, if_pos (by
            intro hall
            have h3 := hall q hq
            rcases hqout with h4 | h4 <;> linarith [h3.1, h3.2])]
  · intro mt hmt
    obtain ⟨hA, hQ, hP, hL, hD, _, _, _⟩ := init_ok_elim hmt
    exact ⟨hA, hQ, hP, hL, hD⟩

/-- Witness for C7: the validation error fires exactly on an out-of-range
`qx`, and a successful construction carries the derived arrays. -/
theorem claim_C7_witness :
    MortalityTable.init [20, 21] ([1/10, 3/2] : List ℚ) = .error .valueError ∧
    (MortalityTable.init [20] ([1/2] : List ℚ)).map (fun mt => mt.dx) =
      .ok (List.zipWith (fun a b => a * b) (lxOf (pxOf [1/2])) [1/2]) := by
  constructor
  · exact (claim_C7 [20, 21] [1/10, 3/2]).1.mpr
      (Or.inr ⟨3/2, by norm_num, Or.inr (by norm_num)⟩)
  · have h0 := init_ok_of_valid ([20])
      (([1/2] : List ℚ))
      (by norm_num) (by norm_num) (by simp)
    have h1 := ((claim_C7 [20] [1/2]).2 _ h0).2.2.2.2
    rw [h0]
    simp only [Except.map, h1]

/-- Counterexample to C6 as stated: for the valid construction input
`ages = [0]`, `qx = [1.0]`, the normalization divides by an unnormalized
`lx[0]` equal to `0`, so the resulting `lx[0]` is **not** `1` (in NumPy it is
`NaN`; in this exact-arithmetic model, `0/0 = 0`). -/
theorem claim_C6_counterexample :
    (MortalityTable.init [0] ([1] : List ℚ)).map (fun mt => mt.lx.getD 0 0) = .ok 0 ∧
      (0 : ℚ) ≠ 1 := by
  constructor
  · rw [init_ok_of_valid _ _ (by norm_num) (by norm_num) (by simp)]
    simp only [Except.map]
    norm_num [lxOf, pxOf, suffixProds, List.range_succ]
  · norm_num

/-- C6 (amended): on every successful construction the derived arrays satisfy
`px[i] = 1 - qx[i]`, `lx[i] = prod(px[i..end]) / prod(px)` (suffix product
rescaled by the unnormalized `lx[0]`), `dx[i] = lx[i] * qx[i]`, all five
arrays have equal length — and `lx[0] = 1` holds **provided** the
unnormalized `lx[0]` (the full product of `px`) is nonzero, e.g. whenever all
`qx < 1`; for a table containing `qx = 1` the rescaling divides by zero and
`lx[0]` is not `1`. -/
theorem claim_C6_amended (ages : List ℤ) (qx : List ℚ) (mt : MortalityTable)
    (h : MortalityTable.init ages qx = .ok mt) :
    mt.ages.length = qx.length ∧ mt.px.length = qx.length ∧
    mt.lx.length = qx.length ∧ mt.dx.length = qx.length ∧
    (∀ i, i < qx.length → mt.px.getD i 0 = 1 - qx.getD i 0) ∧
    (∀ i, i < qx.length → mt.lx.getD i 0 = (mt.px.drop i).prod / mt.px.prod) ∧
    (∀ i, i < qx.length → mt.dx.getD i 0 = mt.lx.getD i 0 * qx.getD i 0) ∧
    (mt.px.prod ≠ 0 → mt.lx.getD 0 0 = 1) := by
  obtain ⟨hA, hQ, hP, hL, hD, hlen, hq, hne⟩ := init_ok_elim h
  have hplen : (pxOf qx).length = qx.length := pxOf_length qx
  have hllen : (lxOf (pxOf qx)).length = qx.length := by rw [lxOf_length, hplen]
  have hq0 : 0 < qx.length := List.length_pos.mpr hne
  refine ⟨by rw [hA, hlen], by rw [hP, hplen], by rw [hL, hllen], ?_, ?_, ?_, ?_, ?_⟩
  · rw [hD, List.length_zipWith, hllen, min_self]
  · intro i hi
    rw [hP]
    exact pxOf_getD hi
  · intro i hi
    rw [hP, hL]
    exact lxOf_getD (by rwa [hplen])
  · intro i hi
    rw [hD, List.getD_eq_getElem _ _ (by rw [List.length_zipWith, hllen, min_self]; exact hi),
      List.getElem_zipWith]
    rw [hL, List.getD_eq_getElem _ _ (by rwa [hllen]), List.getD_eq_getElem _ _ hi]
  · intro hprod
    rw [hL, lxOf_getD (by rwa [hplen]), List.drop_zero]
    rw [hP] at hprod
    exact div_self hprod

/-- Witness for C6 (amended): a concrete two-row table with `qx < 1`, whose
`lx[0]` is exactly `1`. -/
theorem claim_C6_witness :
    (MortalityTable.init [0, 1] ([1/4, 1/2] : List ℚ)).map (fun mt => mt.lx.getD 0 0)
      = .ok 1 := by
  have h0 := init_ok_of_valid ([0, 1])
      (([1/4, 1/2] : List ℚ))
    (by norm_num) (by norm_num) (by simp)
  have h1 := (claim_C6_amended [0, 1] [1/4, 1/2] _ h0).2.2.2.2.2.2.2
    (by norm_num [pxOf])
  rw [h0]
  simp only [Except.map]
  rw [h1]

/-- Counterexample to C9 as stated: a batch input of length 1 does **not**
come back as a length-1 sequence — `get_qx([30])` returns the scalar
`qx[30]`. -/
theorem claim_C9_counterexample :
    (MortalityTable.init [30] ([1/10] : List ℚ)).map (fun mt => mt.get_qx (.batch [30]))
        = .ok (.scalar (some (1/10))) ∧
      QxRes.scalar (some (1/10 : ℚ)) ≠ QxRes.batch [some (1/10)] := by
  constructor
  · rw [init_ok_of_valid _ _ (by norm_num) (by norm_num) (by simp)]
    simp only [Except.map]
    rfl
  · intro h
    cases h

/-- C9 (amended): `get_qx`/`get_px` return a scalar for a scalar input **and
for a batch input of length exactly 1**; every other batch input yields a
same-length sequence with the exact stored `qx` (resp. `1 - qx`) where the
age is tabulated and `NaN` where it is not. -/
theorem claim_C9_amended (mt : MortalityTable) :
    (∀ a : ℤ, mt.get_qx (.scalar a) = .scalar (mt.lookupQx a) ∧
       mt.get_px (.scalar a) = .scalar ((mt.lookupQx a).map (fun q => 1 - q))) ∧
    (∀ l : List ℤ, l.length ≠ 1 →
       mt.get_qx (.batch l) = .batch (l.map mt.lookupQx) ∧
       mt.get_px (.batch l) =
         .batch (l.map (fun a => (mt.lookupQx a).map (fun q => 1 - q))) ∧
       (l.map mt.lookupQx).length = l.length) ∧
    (∀ l : List ℤ, l.length = 1 → mt.get_qx (.batch l) = .scalar (mt.lookupQx (l.headD 0))) ∧
    (∀ a : ℤ, a ∉ mt.ages → mt.lookupQx a = none) ∧
    (∀ (a : ℤ) (ix : ℕ), firstIdx mt.ages a = some ix →
       mt.lookupQx a = some (mt.qx.getD ix 0)) := by
  refine ⟨fun a => ⟨rfl, rfl⟩, fun l hl => ?_, fun l hl => ?_, fun a ha => ?_, ?_⟩
  · refine ⟨?_, ?_, List.length_map l _⟩
    · rw [MortalityTable.get_qx, if_neg hl]
    · rw [MortalityTable.get_px, MortalityTable.get_qx, if_neg hl]
      dsimp only
      rw [List.map_map]
      rfl
  · rw [MortalityTable.get_qx, if_pos hl]
  · rw [MortalityTable.lookupQx, firstIdx_eq_none_iff.mpr ha, Option.map_none']
  · intro a ix hix
    rw [MortalityTable.lookupQx, hix, Option.map_some']

/-- Witness for C9 (amended): concrete scalar, batch-of-2 and batch-of-1
queries against a two-row table. -/
theorem claim_C9_witness :
    (MortalityTable.init [30, 31] ([1/10, 1/5] : List ℚ)).map
        (fun mt => (mt.get_qx (.scalar 30), mt.get_qx (.batch [30, 7]), mt.get_qx (.batch [31])))
      = .ok (.scalar (some (1/10)), .batch [some (1/10), none], .scalar (some (1/5))) := by
  have h0 := init_ok_of_valid ([30, 31])
      (([1/10, 1/5] : List ℚ))
    (by norm_num) (by norm_num) (by simp)
  have h1 := claim_C9_amended
    { ages := [30, 31], qx := [1/10, 1/5], px := pxOf [1/10, 1/5],
      lx := lxOf (pxOf [1/10, 1/5]),
      dx := List.zipWith (fun a b => a * b) (lxOf (pxOf [1/10, 1/5])) [1/10, 1/5] }
  rw [h0, Except.map]
  rw [(h1.1 30).1, (h1.2.1 [30, 7] (by norm_num)).1, h1.2.2.1 [31] rfl]
  rfl

theorem lx_of_half_table : lxOf (pxOf ([1/2, 1/2, 1/2] : List ℚ)) = [1, 2, 4] := by
  norm_num [lxOf, pxOf, suffixProds, List.range_succ]

/-- Counterexample to C2 as stated: the code sums the **raw** later `lx`
entries, it does not divide them by `lx[idx(age)]`.  On the table
`ages = [0,1,2]`, `qx = [1/2,1/2,1/2]` (where `lx = [1,2,4]`),
`life_expectancy(1)` returns `0.5 + 4 = 4.5`, while the claimed
forward-survival-ratio formula gives `0.5 + 4/2 = 2.5`. -/
theorem claim_C2_counterexample :
    (MortalityTable.init [0, 1, 2] ([1/2, 1/2, 1/2] : List ℚ)).bind
        (fun mt => mt.life_expectancy 1) = .ok (9/2) ∧
    (MortalityTable.init [0, 1, 2] ([1/2, 1/2, 1/2] : List ℚ)).bind
        (fun mt => lifeExpectancySpec mt 1) = .ok (5/2) ∧
    (9/2 : ℚ) ≠ 5/2 := by
  refine ⟨?_, ?_, by norm_num⟩
  · rw [init_ok_of_valid _ _ (by norm_num) (by norm_num) (by simp)]
    simp only [Except.bind]
    rw [MortalityTable.life_expectancy]
    norm_num [firstIdx, List.findIdx?_cons, lx_of_half_table]
  · rw [init_ok_of_valid _ _ (by norm_num) (by norm_num) (by simp)]
    simp only [Except.bind]
    rw [lifeExpectancySpec]
    norm_num [firstIdx, List.findIdx?_cons, lx_of_half_table]

/-- C2 (amended): `life_expectancy(age)` raises a lookup error when `age` is
absent, returns `0` at the last tabulated age, and otherwise returns `0.5`
plus the **unnormalized** sum of the `lx` entries after the age's index (no
division by `lx[idx(age)]`). -/
theorem claim_C2_amended (mt : MortalityTable) (age : ℤ) :
    (age ∉ mt.ages → mt.life_expectancy age = .error .valueError) ∧
    (∀ ix, firstIdx mt.ages age = some ix →
      (mt.lx.length ≤ ix + 1 → mt.life_expectancy age = .ok 0) ∧
      (ix + 1 < mt.lx.length →
        mt.life_expectancy age = .ok (1/2 + (mt.lx.drop (ix + 1)).sum))) := by
  constructor
  · intro ha
    rw [MortalityTable.life_expectancy, firstIdx_eq_none_iff.mpr ha]
  · intro ix hix
    constructor
    · intro hlast
      rw [MortalityTable.life_expectancy, hix]
      simp only [List.length_drop]
      rw [if_pos (by omega)]
    · intro hmid
      rw [MortalityTable.life_expectancy, hix]
      simp only [List.length_drop]
      rw [if_neg (by omega), List.drop_drop]

/-- Witness for C2 (amended): the three behaviours on the concrete table
`ages = [0,1,2]`, `qx = [1/2,1/2,1/2]` (`lx = [1,2,4]`). -/
theorem claim_C2_witness :
    (MortalityTable.init [0, 1, 2] ([1/2, 1/2, 1/2] : List ℚ)).bind
        (fun mt => mt.life_expectancy 7) = .error .valueError ∧
    (MortalityTable.init [0, 1, 2] ([1/2, 1/2, 1/2] : List ℚ)).bind
        (fun mt => mt.life_expectancy 2) = .ok 0 ∧
    (MortalityTable.init [0, 1, 2] ([1/2, 1/2, 1/2] : List ℚ)).bind
        (fun mt => mt.life_expectancy 0) = .ok (13/2) := by
  have h0 := init_ok_of_valid ([0, 1, 2])
      (([1/2, 1/2, 1/2] : List ℚ))
    (by norm_num) (by norm_num) (by simp)
  have hmt := claim_C2_amended
    { ages := [0, 1, 2], qx := [1/2, 1/2, 1/2], px := pxOf [1/2, 1/2, 1/2],
      lx := lxOf (pxOf [1/2, 1/2, 1/2]),
      dx := List.zipWith (fun a b => a * b) (lxOf (pxOf [1/2, 1/2, 1/2])) [1/2, 1/2, 1/2] }
  have hlen : (lxOf (pxOf ([1/2, 1/2, 1/2] : List ℚ))).length = 3 := by
    rw [lxOf_length, pxOf_length]
    rfl
  rw [h0]
  simp only [Except.bind]
  refine ⟨(hmt 7).1 (by decide), ?_, ?_⟩
  · refine ((hmt 2).2 2 (by decide)).1 ?_
    show (lxOf (pxOf ([1/2, 1/2, 1/2] : List ℚ))).length ≤ 2 + 1
    rw [hlen]
  · have h2 := ((hmt 0).2 0 (by decide)).2 (by
      show 0 + 1 < (lxOf (pxOf ([1/2, 1/2, 1/2] : List ℚ))).length
      rw [hlen]
      norm_num)
    rw [h2]
    norm_num [lx_of_half_table]

/-- Counterexample to C1 as stated: on the table `ages = [20,21]` (any valid
rates), `npx(22, 1)` enters the extrapolation branch with `x = 22` not
tabulated and a tabulated age `≤ 22` present, so the final
`np.where(ages == x)[0][0]` lookup raises `IndexError` instead of returning
the claimed `0.0`. -/
theorem claim_C1_counterexample :
    (MortalityTable.init [20, 21] ([1/10, 1/5] : List ℚ)).bind
        (fun mt => (SurvivalFunctions.mk mt (1/20)).npx 22 1) = .error .indexError := by
  rw [init_ok_of_valid _ _ (by norm_num) (by norm_num) (by simp)]
  simp only [Except.bind]
  rw [SurvivalFunctions.npx]
  norm_num [firstIdx, List.findIdx?_cons, List.getLastD, List.range_succ, List.filter]

/-- C1 (amended): when `x + n` exceeds the table's maximum age (consecutive
ages, all `qx ∈ [0,1)`), the extrapolation branch holds constant the one-year
survival probability at the **greatest tabulated age ≤ x** — for tabulated
`x` that is `x` itself, the survivor-ratio factor cancels, and
`npx(x,n) = px[x]^n` (not the last tabulated `px`); if `x` is below every
tabulated age the result is `0.0`; and if `x` is untabulated but some
tabulated age is `≤ x`, an `IndexError` is raised rather than `0.0`
returned. -/
theorem claim_C1_amended (a0 : ℤ) (m : ℕ) (qx : List ℚ) (mt : MortalityTable) (r : ℚ)
    (hinit : MortalityTable.init (consecAges a0 m) qx = .ok mt)
    (hq1 : ∀ q ∈ qx, 0 ≤ q ∧ q < 1) (n : ℤ) (hn : 0 < n) :
    (∀ k : ℕ, k < m → (m : ℤ) - 1 < (k : ℤ) + n →
      (SurvivalFunctions.mk mt r).npx (a0 + k) n = .ok (mt.px.getD k 0 ^ n.toNat)) ∧
    (∀ x : ℤ, x < a0 → (m : ℤ) - 1 < x - a0 + n →
      (SurvivalFunctions.mk mt r).npx x n = .ok 0) ∧
    (∀ x : ℤ, x ∉ mt.ages → a0 ≤ x → (m : ℤ) - 1 < x - a0 + n →
      (SurvivalFunctions.mk mt r).npx x n = .error .indexError) := by
  obtain ⟨hA, hQ, hP, hL, hD, hlen, hq, hne⟩ := init_ok_elim hinit
  have hm0 : m ≠ 0 := by
    intro h0
    subst h0
    rw [consecAges_length] at hlen
    exact hne (List.eq_nil_of_length_eq_zero hlen.symm)
  refine ⟨?_, ?_, ?_⟩
  · intro k hk hbeyond
    exact npx_beyond hinit hq1 hk hn hbeyond
  · intro x hx hbeyond
    rw [SurvivalFunctions.npx, if_neg (by omega), if_neg (by omega)]
    have hsfA : (SurvivalFunctions.mk mt r).mt.ages = consecAges a0 m := hA
    rw [hsfA, consecAges_getLastD hm0, if_pos (by omega), consecAges_length]
    have hfilter : (List.range m).filter
        (fun j => decide ((consecAges a0 m).getD j 0 ≤ x)) = [] := by
      apply range_filter_nil
      intro j hj
      rw [decide_eq_false_iff_not, not_le, consecAges_getD a0 hj]
      omega
    simp only [hfilter, List.getLast?_nil]
  · intro x hx hxa hbeyond
    rw [SurvivalFunctions.npx, if_neg (by omega), if_neg (by omega)]
    have hsfA : (SurvivalFunctions.mk mt r).mt.ages = consecAges a0 m := hA
    rw [hsfA, consecAges_getLastD hm0, if_pos (by omega), consecAges_length]
    have hxm : x ∉ consecAges a0 m := by rwa [hA] at hx
    have hk : min ((x - a0).toNat) (m - 1) < m := by omega
    have hfilter : ((List.range m).filter
        (fun j => decide ((consecAges a0 m).getD j 0 ≤ x))).getLast? =
          some (min ((x - a0).toNat) (m - 1)) := by
      apply range_filter_getLast _ hk
      intro j hj
      rw [decide_eq_true_iff, consecAges_getD a0 hj]
      omega
    have hnone : firstIdx (consecAges a0 m) x = none := firstIdx_eq_none_iff.mpr hxm
    simp only [hfilter, hnone]

/-- Witness for C1 (amended): on `ages = [20,21]`, `qx = [1/10,1/5]`,
`npx(20, 5) = (9/10)^5` (the `px` at age 20 held constant — not the last
`px = 4/5`), `npx(17, 90) = 0`, and `npx(22, 90)` raises. -/
theorem claim_C1_witness :
    (MortalityTable.init (consecAges 20 2) ([1/10, 1/5] : List ℚ)).bind
        (fun mt => (SurvivalFunctions.mk mt (1/20)).npx 20 5) = .ok ((9/10 : ℚ) ^ 5) ∧
    (MortalityTable.init (consecAges 20 2) ([1/10, 1/5] : List ℚ)).bind
        (fun mt => (SurvivalFunctions.mk mt (1/20)).npx 17 90) = .ok 0 ∧
    (MortalityTable.init (consecAges 20 2) ([1/10, 1/5] : List ℚ)).bind
        (fun mt => (SurvivalFunctions.mk mt (1/20)).npx 22 90) = .error .indexError := by
  have h0 := init_ok_of_valid (consecAges 20 2)
      (([1/10, 1/5] : List ℚ))
    (by rw [consecAges_length]; rfl) (by norm_num) (by simp)
  have h1 := claim_C1_amended 20 2 [1/10, 1/5] _ (1/20) h0 (by norm_num)
  rw [h0]
  simp only [Except.bind]
  refine ⟨?_, ?_, ?_⟩
  · have h2 := (h1 5 (by norm_num)).1 0 (by norm_num) (by norm_num)
    have h3 : (20 : ℤ) + ((0 : ℕ) : ℤ) = 20 := by norm_num
    rw [h3] at h2
    rw [h2]
    norm_num [pxOf, (show ((5 : ℤ)).toNat = 5 from rfl)]
  · exact (h1 90 (by norm_num)).2.1 17 (by norm_num) (by norm_num)
  · refine (h1 90 (by norm_num)).2.2 22 ?_ (by norm_num) (by norm_num)
    rw [mem_consecAges]
    norm_num

/-- Counterexample to C4 as stated: on `ages = [0,1,2]`, `qx = [0, 9/10, 1/2]`,
`npx(0, 2) = 1·(1/10) = 1/10` but `npx(0, 3)` enters the extrapolation branch,
holds `px[0] = 1` constant and returns `1 > 1/10`: `npx(0, ·)` is **not**
non-increasing across the table boundary. -/
theorem claim_C4_counterexample :
    (MortalityTable.init [0, 1, 2] ([0, 9/10, 1/2] : List ℚ)).bind
        (fun mt => (SurvivalFunctions.mk mt (1/20)).npx 0 2) = .ok (1/10) ∧
    (MortalityTable.init [0, 1, 2] ([0, 9/10, 1/2] : List ℚ)).bind
        (fun mt => (SurvivalFunctions.mk mt (1/20)).npx 0 3) = .ok 1 ∧
    ¬ ((1 : ℚ) ≤ 1/10) := by
  refine ⟨?_, ?_, by norm_num⟩
  · rw [init_ok_of_valid _ _ (by norm_num) (by norm_num) (by simp)]
    simp only [Except.bind]
    rw [SurvivalFunctions.npx]
    norm_num [firstIdx, List.findIdx?_cons, pxOf, List.getLastD]
  · rw [init_ok_of_valid _ _ (by norm_num) (by norm_num) (by simp)]
    simp only [Except.bind]
    rw [SurvivalFunctions.npx]
    norm_num [firstIdx, List.findIdx?_cons, pxOf, lxOf, suffixProds, List.getLastD,
      List.range_succ, List.filter]

/-- C4 (amended): for a consecutive-age table with `qx ∈ [0,1)` and tabulated
`x`, `npx(x, n)` is non-increasing in `n` **within each regime separately**:
over the `n` with `x + n` inside the table, and over the `n` with `x + n`
beyond the table; across the boundary it can increase (see the
counterexample). -/
theorem claim_C4_amended (a0 : ℤ) (m : ℕ) (qx : List ℚ) (mt : MortalityTable) (r : ℚ)
    (hinit : MortalityTable.init (consecAges a0 m) qx = .ok mt)
    (hq1 : ∀ q ∈ qx, 0 ≤ q ∧ q < 1) (k : ℕ) (hk : k < m) :
    (∀ n n' : ℤ, 0 ≤ n → n ≤ n' → (k : ℤ) + n' ≤ (m : ℤ) - 1 →
      ∃ p p', (SurvivalFunctions.mk mt r).npx (a0 + k) n = .ok p ∧
        (SurvivalFunctions.mk mt r).npx (a0 + k) n' = .ok p' ∧ p' ≤ p) ∧
    (∀ n n' : ℤ, (m : ℤ) - 1 < (k : ℤ) + n → n ≤ n' →
      ∃ p p', (SurvivalFunctions.mk mt r).npx (a0 + k) n = .ok p ∧
        (SurvivalFunctions.mk mt r).npx (a0 + k) n' = .ok p' ∧ p' ≤ p) := by
  obtain ⟨hA, hQ, hP, hL, hD, hlen, hq, hne⟩ := init_ok_elim hinit
  have hsfP : (SurvivalFunctions.mk mt r).mt.px = pxOf qx := hP
  have hbdrop : ∀ a ∈ (SurvivalFunctions.mk mt r).mt.px.drop k, 0 ≤ a ∧ a ≤ 1 := by
    intro a ha
    rw [hsfP] at ha
    exact pxOf_mem_bounds hq a (List.drop_subset _ _ ha)
  constructor
  · intro n n' hn hnn' hin
    refine ⟨_, _, npx_inTable hinit hk hn (by omega),
      npx_inTable hinit hk (by omega) hin, ?_⟩
    exact prod_take_antitone hbdrop (by omega)
  · intro n n' hbey hnn'
    have hn1 : 0 < n := by omega
    refine ⟨_, _, npx_beyond hinit hq1 hk hn1 hbey,
      npx_beyond hinit hq1 hk (by omega) (by omega), ?_⟩
    have hqlen : qx.length = m := by
      rw [consecAges_length] at hlen
      omega
    have hklt : k < (pxOf qx).length := by rw [pxOf_length]; omega
    have hb := pxOf_mem_bounds hq _ (List.getElem_mem hklt)
    rw [hsfP, List.getD_eq_getElem _ _ hklt]
    exact pow_le_pow_of_le_one hb.1 hb.2 (by omega)

/-- Witness for C4 (amended): in-table monotonicity `npx(0,2) ≤ npx(0,1)` and
beyond-table monotonicity `npx(0,4) ≤ npx(0,3)` on `ages = [0,1,2]`,
`qx = [0, 9/10, 1/2]`. -/
theorem claim_C4_witness :
    (MortalityTable.init (consecAges 0 3) ([0, 9/10, 1/2] : List ℚ)).bind
        (fun mt => (SurvivalFunctions.mk mt (1/20)).npx (0 + (0 : ℕ)) 1) = .ok 1 ∧
    (MortalityTable.init (consecAges 0 3) ([0, 9/10, 1/2] : List ℚ)).bind
        (fun mt => (SurvivalFunctions.mk mt (1/20)).npx (0 + (0 : ℕ)) 2) = .ok (1/10) ∧
    (MortalityTable.init (consecAges 0 3) ([0, 9/10, 1/2] : List ℚ)).bind
        (fun mt => (SurvivalFunctions.mk mt (1/20)).npx (0 + (0 : ℕ)) 3) = .ok 1 ∧
    (MortalityTable.init (consecAges 0 3) ([0, 9/10, 1/2] : List ℚ)).bind
        (fun mt => (SurvivalFunctions.mk mt (1/20)).npx (0 + (0 : ℕ)) 4) = .ok 1 ∧
    ((1/10 : ℚ) ≤ 1) ∧ ((1 : ℚ) ≤ 1) := by
  have h0 := init_ok_of_valid (consecAges 0 3)
      (([0, 9/10, 1/2] : List ℚ))
    (by rw [consecAges_length]; rfl) (by norm_num) (by simp)
  have h1 := claim_C4_amended 0 3 [0, 9/10, 1/2] _ (1/20) h0 (by norm_num) 0 (by norm_num)
  obtain ⟨p1, p2, e1, e2, h12⟩ := h1.1 1 2 (by norm_num) (by norm_num) (by norm_num)
  obtain ⟨p3, p4, e3, e4, h34⟩ := h1.2 3 4 (by norm_num) (by norm_num)
  have c1 : (SurvivalFunctions.mk
      { ages := consecAges 0 3, qx := [0, 9/10, 1/2], px := pxOf [0, 9/10, 1/2],
        lx := lxOf (pxOf [0, 9/10, 1/2]),
        dx := List.zipWith (fun a b => a * b) (lxOf (pxOf [0, 9/10, 1/2])) [0, 9/10, 1/2] }
      (1/20)).npx (0 + (0 : ℕ)) 1 = .ok 1 := by
    rw [SurvivalFunctions.npx]
    norm_num [firstIdx, List.findIdx?_cons, pxOf, consecAges, List.range_succ,
      List.getLastD]
  have c2 : (SurvivalFunctions.mk
      { ages := consecAges 0 3, qx := [0, 9/10, 1/2], px := pxOf [0, 9/10, 1/2],
        lx := lxOf (pxOf [0, 9/10, 1/2]),
        dx := List.zipWith (fun a b => a * b) (lxOf (pxOf [0, 9/10, 1/2])) [0, 9/10, 1/2] }
      (1/20)).npx (0 + (0 : ℕ)) 2 = .ok (1/10) := by
    rw [SurvivalFunctions.npx]
    norm_num [firstIdx, List.findIdx?_cons, pxOf, consecAges, List.range_succ,
      List.getLastD]
  have c3 : (SurvivalFunctions.mk
      { ages := consecAges 0 3, qx := [0, 9/10, 1/2], px := pxOf [0, 9/10, 1/2],
        lx := lxOf (pxOf [0, 9/10, 1/2]),
        dx := List.zipWith (fun a b => a * b) (lxOf (pxOf [0, 9/10, 1/2])) [0, 9/10, 1/2] }
      (1/20)).npx (0 + (0 : ℕ)) 3 = .ok 1 := by
    rw [SurvivalFunctions.npx]
    norm_num [firstIdx, List.findIdx?_cons, pxOf, lxOf, suffixProds, consecAges,
      List.range_succ, List.getLastD, List.filter]
  have c4 : (SurvivalFunctions.mk
      { ages := consecAges 0 3, qx := [0, 9/10, 1/2], px := pxOf [0, 9/10, 1/2],
        lx := lxOf (pxOf [0, 9/10, 1/2]),
        dx := List.zipWith (fun a b => a * b) (lxOf (pxOf [0, 9/10, 1/2])) [0, 9/10, 1/2] }
      (1/20)).npx (0 + (0 : ℕ)) 4 = .ok 1 := by
    rw [SurvivalFunctions.npx]
    norm_num [firstIdx, List.findIdx?_cons, pxOf, lxOf, suffixProds, consecAges,
      List.range_succ, List.getLastD, List.filter]
  injection e1.symm.trans c1 with hp1
  injection e2.symm.trans c2 with hp2
  injection e3.symm.trans c3 with hp3
  injection e4.symm.trans c4 with hp4
  subst hp1
  subst hp2
  subst hp3
  subst hp4
  rw [h0]
  simp only [Except.bind]
  exact ⟨c1, c2, c3, c4, h12, h34⟩

/-- C10: for every table whose `qx` are all strictly below 1, the derived `lx`
is non-decreasing with `lx[0] = 1`, every entry is `≥ 1`, and
`lx[i+1] = lx[i] / px[i]` — the cumulative-survivors curve grows with age
(inverse of the conventional decreasing convention).  The arrays are plain
construction-time values; no operation of the embedding mutates them. -/
theorem claim_C10 (ages : List ℤ) (qx : List ℚ) (mt : MortalityTable)
    (hinit : MortalityTable.init ages qx = .ok mt)
    (hq1 : ∀ q ∈ qx, q < 1) :
    mt.lx.getD 0 0 = 1 ∧
    (∀ i, i < mt.lx.length → 1 ≤ mt.lx.getD i 0) ∧
    (∀ i, i + 1 < mt.lx.length →
      mt.lx.getD (i + 1) 0 = mt.lx.getD i 0 / mt.px.getD i 0 ∧
      mt.lx.getD i 0 ≤ mt.lx.getD (i + 1) 0) := by
  obtain ⟨hA, hQ, hP, hL, hD, hlen, hq, hne⟩ := init_ok_elim hinit
  have hqb : ∀ q ∈ qx, 0 ≤ q ∧ q < 1 := fun q hq' => ⟨(hq q hq').1, hq1 q hq'⟩
  have hpos : ∀ p ∈ pxOf qx, 0 < p ∧ p ≤ 1 := pxOf_mem_pos hqb
  have hplen : 0 < (pxOf qx).length := by
    rw [pxOf_length]
    exact List.length_pos.mpr hne
  have hlxlen : mt.lx.length = (pxOf qx).length := by rw [hL, lxOf_length]
  have hprodpos : 0 < (pxOf qx).prod := List.prod_pos (fun p hp => (hpos p hp).1)
  have hdroppos : ∀ j, 0 < ((pxOf qx).drop j).prod := by
    intro j
    exact List.prod_pos (fun p hp => (hpos p (List.drop_subset _ _ hp)).1)
  have hge1 : ∀ i, i < mt.lx.length → 1 ≤ mt.lx.getD i 0 := by
    intro i hi
    rw [hlxlen] at hi
    rw [hL, lxOf_getD hi]
    rw [one_le_div hprodpos]
    have hsplit : (pxOf qx).prod =
        ((pxOf qx).take i).prod * ((pxOf qx).drop i).prod := by
      rw [← List.prod_append, List.take_append_drop]
    rw [hsplit]
    have htake : ((pxOf qx).take i).prod ≤ 1 :=
      prod_le_one_of_mem (fun p hp =>
        ⟨le_of_lt (hpos p (List.take_subset _ _ hp)).1, (hpos p (List.take_subset _ _ hp)).2⟩)
    calc ((pxOf qx).take i).prod * ((pxOf qx).drop i).prod
        ≤ 1 * ((pxOf qx).drop i).prod :=
          mul_le_mul_of_nonneg_right htake (le_of_lt (hdroppos i))
      _ = ((pxOf qx).drop i).prod := one_mul _
  refine ⟨?_, hge1, ?_⟩
  · rw [hL, lxOf_getD hplen, List.drop_zero]
    exact div_self (ne_of_gt hprodpos)
  · intro i hi
    rw [hlxlen] at hi
    have hi' : i < (pxOf qx).length := by omega
    have hpi := hpos _ (List.getElem_mem hi')
    have hcons : (pxOf qx).drop i = (pxOf qx)[i] :: (pxOf qx).drop (i + 1) :=
      List.drop_eq_getElem_cons hi'
    have hrec : mt.lx.getD (i + 1) 0 = mt.lx.getD i 0 / mt.px.getD i 0 := by
      rw [hL, hP, lxOf_getD hi, lxOf_getD (by omega), List.getD_eq_getElem _ _ hi']
      rw [div_div, mul_comm ((pxOf qx).prod) _, hcons, List.prod_cons]
      rw [mul_div_mul_left _ _ (ne_of_gt hpi.1)]
    refine ⟨hrec, ?_⟩
    rw [hrec]
    have hlxi : 0 < mt.lx.getD i 0 := lt_of_lt_of_le one_pos (hge1 i (by omega))
    rw [hP, List.getD_eq_getElem _ _ hi']
    rw [le_div_iff₀ hpi.1]
    exact mul_le_of_le_one_right (le_of_lt hlxi) hpi.2

/-- Witness for C10: on `ages = [0,1]`, `qx = [1/4,1/2]`, `lx = [1, 4/3]`. -/
theorem claim_C10_witness :
    (MortalityTable.init [0, 1] ([1/4, 1/2] : List ℚ)).map
        (fun mt => (mt.lx.getD 0 0, mt.lx.getD 0 0 ≤ mt.lx.getD (0 + 1) 0))
      = .ok (1, True) := by
  have h0 := init_ok_of_valid ([0, 1])
      (([1/4, 1/2] : List ℚ))
    (by norm_num) (by norm_num) (by simp)
  have h1 := claim_C10 [0, 1] [1/4, 1/2] _ h0 (by norm_num)
  have hlen : (lxOf (pxOf ([1/4, 1/2] : List ℚ))).length = 2 := by
    rw [lxOf_length, pxOf_length]
    rfl
  have h2 := (h1.2.2 0 (by
    show 0 + 1 < (lxOf (pxOf ([1/4, 1/2] : List ℚ))).length
    rw [hlen]
    norm_num)).2
  rw [h1.1] at h2
  rw [h0]
  simp only [Except.map]
  rw [h1.1, eq_true h2]

/-- Counterexample to C5 as stated: on `ages = [0,1]`, `qx = [1/2,1/2]`,
rate `5%`: the whole-life assurance sums only `max_t = 1` year, but the term
assurance with `n = 2` keeps summing positive extrapolated death
probabilities past the table, so `assurance(0, 2) = 410/441 > 10/21 =
assurance(0)`. -/
theorem claim_C5_counterexample :
    (MortalityTable.init [0, 1] ([1/2, 1/2] : List ℚ)).bind
        (fun mt => (SurvivalFunctions.mk mt (1/20)).assurance 0 none) = .ok (10/21) ∧
    (MortalityTable.init [0, 1] ([1/2, 1/2] : List ℚ)).bind
        (fun mt => (SurvivalFunctions.mk mt (1/20)).assurance 0 (some 2)) = .ok (410/441) ∧
    ¬ ((410/441 : ℚ) ≤ 10/21) := by
  refine ⟨?_, ?_, by norm_num⟩
  · rw [init_ok_of_valid _ _ (by norm_num) (by norm_num) (by simp)]
    simp only [Except.bind]
    rw [SurvivalFunctions.assurance]
    norm_num [firstIdx, List.findIdx?_cons, SurvivalFunctions.assuranceSum,
      SurvivalFunctions.qTerm, SurvivalFunctions.npx, SurvivalFunctions.v,
      List.range_succ, List.foldlM, Except.bind, Except.map, pxOf, List.getLastD,
      Except.instMonad, Except.pure]
  · rw [init_ok_of_valid _ _ (by norm_num) (by norm_num) (by simp)]
    simp only [Except.bind]
    rw [SurvivalFunctions.assurance]
    norm_num [firstIdx, List.findIdx?_cons, SurvivalFunctions.assuranceSum,
      SurvivalFunctions.qTerm, SurvivalFunctions.npx, SurvivalFunctions.v,
      List.range_succ, List.foldlM, Except.bind, Except.map, pxOf, lxOf, suffixProds,
      List.getLastD, List.filter, Int.toNat_ofNat, min_def, Except.instMonad, Except.pure,
      (show ((2 : ℤ)).toNat = 2 from rfl)]

/-- C5 (amended): for a consecutive-age table with `qx ∈ [0,1)`, an interest
rate above `-1` (positive discount factor), a tabulated `x`, and a term `n`
that does **not** exceed the whole-life horizon (the number of tabulated ages
after `x`), the term assurance is at most the whole-life assurance; for `n`
beyond the horizon the inequality can fail (see the counterexample). -/
theorem claim_C5_amended (a0 : ℤ) (m : ℕ) (qx : List ℚ) (mt : MortalityTable) (r : ℚ)
    (hinit : MortalityTable.init (consecAges a0 m) qx = .ok mt)
    (hq1 : ∀ q ∈ qx, 0 ≤ q ∧ q < 1) (hr : -1 < r)
    (k : ℕ) (hk : k < m) (n : ℤ) (hn1 : 1 ≤ n) (hnh : (k : ℤ) + n ≤ (m : ℤ) - 1) :
    ∃ a b, (SurvivalFunctions.mk mt r).assurance (a0 + k) (some n) = .ok a ∧
      (SurvivalFunctions.mk mt r).assurance (a0 + k) none = .ok b ∧ a ≤ b := by
  obtain ⟨hA, hQ, hP, hL, hD, hlen, hq, hne⟩ := init_ok_elim hinit
  have hsfA : (SurvivalFunctions.mk mt r).mt.ages = consecAges a0 m := hA
  have hx : (a0 + (k : ℤ)) ∈ (SurvivalFunctions.mk mt r).mt.ages := by
    rw [hsfA]
    exact mem_consecAges.mpr ⟨by omega, by omega⟩
  have hfik : firstIdx (SurvivalFunctions.mk mt r).mt.ages (a0 + (k : ℤ)) = some k := by
    rw [hsfA]
    exact firstIdx_consecAges hk
  have hlenm : (SurvivalFunctions.mk mt r).mt.ages.length = m := by
    rw [hsfA, consecAges_length]
  have hterm := assuranceSum_eq hx n.toNat
  have hwhole := assuranceSum_eq hx ((SurvivalFunctions.mk mt r).mt.ages.length - k - 1)
  have hterm2 : (SurvivalFunctions.mk mt r).assurance (a0 + (k : ℤ)) (some n) =
      .ok (∑ t ∈ Finset.range n.toNat,
        (SurvivalFunctions.mk mt r).v ^ (t + 1) *
          min (qTermVal (SurvivalFunctions.mk mt r) (a0 + (k : ℤ)) (t + 1)) 1) := by
    rw [SurvivalFunctions.assurance]
    exact hterm
  have hwhole2 : (SurvivalFunctions.mk mt r).assurance (a0 + (k : ℤ)) none =
      .ok (∑ t ∈ Finset.range ((SurvivalFunctions.mk mt r).mt.ages.length - k - 1),
        (SurvivalFunctions.mk mt r).v ^ (t + 1) *
          min (qTermVal (SurvivalFunctions.mk mt r) (a0 + (k : ℤ)) (t + 1)) 1) := by
    rw [SurvivalFunctions.assurance]
    simp only [hfik]
    exact hwhole
  refine ⟨_, _, hterm2, hwhole2, ?_⟩
  have hv : 0 ≤ (SurvivalFunctions.mk mt r).v := by
    rw [SurvivalFunctions.v]
    have h1r : (0 : ℚ) < 1 + (SurvivalFunctions.mk mt r).i := by
      show (0 : ℚ) < 1 + r
      linarith
    exact le_of_lt (div_pos one_pos h1r)
  apply Finset.sum_le_sum_of_subset_of_nonneg
  · apply Finset.range_subset.mpr
    rw [hlenm]
    omega
  · intro t ht hnt
    rw [Finset.mem_range, hlenm] at ht
    apply mul_nonneg (pow_nonneg hv _)
    refine le_min ?_ zero_le_one
    exact qTermVal_nonneg_inTable hinit hq1 hk (by omega) (by omega)

/-- Witness for C5 (amended): `assurance(0, 1) = 2/21 ≤ 122/441 =
assurance(0)` on `ages = [0,1,2]`, `qx = [1/10, 1/5, 3/10]`, rate 5%. -/
theorem claim_C5_witness :
    (MortalityTable.init (consecAges 0 3) ([1/10, 1/5, 3/10] : List ℚ)).bind
        (fun mt => (SurvivalFunctions.mk mt (1/20)).assurance (0 + (0 : ℕ)) (some 1))
      = .ok (2/21) ∧
    (MortalityTable.init (consecAges 0 3) ([1/10, 1/5, 3/10] : List ℚ)).bind
        (fun mt => (SurvivalFunctions.mk mt (1/20)).assurance (0 + (0 : ℕ)) none)
      = .ok (122/441) ∧
    ((2/21 : ℚ) ≤ 122/441) := by
  have h0 := init_ok_of_valid (consecAges 0 3)
      (([1/10, 1/5, 3/10] : List ℚ))
    (by rw [consecAges_length]; rfl) (by norm_num) (by simp)
  obtain ⟨a, b, ea, eb, hab⟩ := claim_C5_amended 0 3 [1/10, 1/5, 3/10] _ (1/20) h0
    (by norm_num) (by norm_num) 0 (by norm_num) 1 (by norm_num) (by norm_num)
  have ca : (SurvivalFunctions.mk
      { ages := consecAges 0 3, qx := [1/10, 1/5, 3/10], px := pxOf [1/10, 1/5, 3/10],
        lx := lxOf (pxOf [1/10, 1/5, 3/10]),
        dx := List.zipWith (fun a b => a * b) (lxOf (pxOf [1/10, 1/5, 3/10]))
          [1/10, 1/5, 3/10] }
      (1/20)).assurance (0 + (0 : ℕ)) (some 1) = .ok (2/21) := by
    rw [SurvivalFunctions.assurance]
    norm_num [firstIdx, List.findIdx?_cons, SurvivalFunctions.assuranceSum,
      SurvivalFunctions.qTerm, SurvivalFunctions.npx, SurvivalFunctions.v,
      List.range_succ, List.foldlM, Except.bind, Except.map, pxOf, consecAges,
      List.getLastD, Except.instMonad, Except.pure]
  have cb : (SurvivalFunctions.mk
      { ages := consecAges 0 3, qx := [1/10, 1/5, 3/10], px := pxOf [1/10, 1/5, 3/10],
        lx := lxOf (pxOf [1/10, 1/5, 3/10]),
        dx := List.zipWith (fun a b => a * b) (lxOf (pxOf [1/10, 1/5, 3/10]))
          [1/10, 1/5, 3/10] }
      (1/20)).assurance (0 + (0 : ℕ)) none = .ok (122/441) := by
    rw [SurvivalFunctions.assurance]
    norm_num [firstIdx, List.findIdx?_cons, SurvivalFunctions.assuranceSum,
      SurvivalFunctions.qTerm, SurvivalFunctions.npx, SurvivalFunctions.v,
      List.range_succ, List.foldlM, Except.bind, Except.map, pxOf, consecAges,
      List.getLastD, Except.instMonad, Except.pure]
  injection ea.symm.trans ca with ha
  injection eb.symm.trans cb with hb
  subst ha
  subst hb
  rw [h0]
  simp only [Except.bind]
  exact ⟨ca, cb, hab⟩

/-- Counterexample to C3 as stated: the whole-life `annuity_due(5)` on a
table of ages `[20, 21]` hits `np.where(ages == 5)[0][0]` on an empty match
and raises `IndexError` — a missing-age condition that does **not** degrade
to a sentinel value. -/
theorem claim_C3_counterexample :
    (MortalityTable.init [20, 21] ([1/10, 1/5] : List ℚ)).bind
        (fun mt => (SurvivalFunctions.mk mt (1/20)).annuity_due Real.exp Real.log 5 none)
      = .error .indexError := by
  rw [init_ok_of_valid _ _ (by norm_num) (by norm_num) (by simp)]
  simp only [Except.bind]
  rw [SurvivalFunctions.annuity_due]
  norm_num [firstIdx, List.findIdx?_cons]

/-- C3 (amended): for a consecutive-age table with all `qx ∈ [0,1)` and a
**tabulated** starting age `x`, none of the `SurvivalFunctions` operations
raises: `npx`, `nqx`, `tpx`, `annuity_due`, `annuity_immediate`, `assurance`
and `net_single_premium` all return normally, for every integer `n`, optional
term, and float `t`.  (For untabulated `x`, `npx` — hence everything built on
it — can instead raise an index lookup error, see the counterexample; the
`qx < 1` and consecutive-ages hypotheses keep the intermediate `npx` values
nonzero so that the Python division in `assurance` cannot raise either.) -/
theorem claim_C3_amended (a0 : ℤ) (m : ℕ) (qx : List ℚ) (mt : MortalityTable) (r : ℚ)
    (_hinit : MortalityTable.init (consecAges a0 m) qx = .ok mt)
    (_hq1 : ∀ q ∈ qx, 0 ≤ q ∧ q < 1)
    (x : ℤ) (hx : x ∈ mt.ages) (n : ℤ) (nopt : Option ℤ) (t : ℚ) :
    (∃ w, (SurvivalFunctions.mk mt r).npx x n = .ok w) ∧
    (∃ w, (SurvivalFunctions.mk mt r).nqx x n = .ok w) ∧
    (∃ w, (SurvivalFunctions.mk mt r).tpx Real.exp Real.log x t = .ok w) ∧
    (∃ w, (SurvivalFunctions.mk mt r).annuity_due Real.exp Real.log x nopt = .ok w) ∧
    (∃ w, (SurvivalFunctions.mk mt r).annuity_immediate Real.exp Real.log x nopt = .ok w) ∧
    (∃ w, (SurvivalFunctions.mk mt r).assurance x nopt = .ok w) ∧
    (∃ w, (SurvivalFunctions.mk mt r).net_single_premium x nopt = .ok w) := by
  have hx' : x ∈ (SurvivalFunctions.mk mt r).mt.ages := hx
  have hdue : ∃ w, (SurvivalFunctions.mk mt r).annuity_due Real.exp Real.log x nopt
      = .ok w := by
    rcases nopt with _ | nn
    · rw [SurvivalFunctions.annuity_due]
      obtain ⟨ix, hfix⟩ := firstIdx_isSome_of_mem hx'
      simp only [hfix]
      exact annuityLoop_isOk Real.exp Real.log hx' _
    · rw [SurvivalFunctions.annuity_due]
      exact annuityLoop_isOk Real.exp Real.log hx' _
  have hass : ∃ w, (SurvivalFunctions.mk mt r).assurance x nopt = .ok w := by
    rcases nopt with _ | nn
    · rw [SurvivalFunctions.assurance]
      obtain ⟨ix, hfix⟩ := firstIdx_isSome_of_mem hx'
      simp only [hfix]
      exact ⟨_, assuranceSum_eq hx' _⟩
    · rw [SurvivalFunctions.assurance]
      exact ⟨_, assuranceSum_eq hx' _⟩
  refine ⟨npx_isOk hx' n, ?_, tpx_isOk Real.exp Real.log hx' t, hdue, ?_, hass, hass⟩
  · obtain ⟨w1, hw1⟩ := npx_isOk hx' n
    refine ⟨1 - w1, ?_⟩
    rw [SurvivalFunctions.nqx, hw1]
    rfl
  · obtain ⟨w4, hw4⟩ := hdue
    refine ⟨w4.map (fun a => a - 1), ?_⟩
    rw [SurvivalFunctions.annuity_immediate, hw4]
    rfl

/-- Witness for C3 (amended): all seven operations return normally at the
tabulated age 20 of a concrete two-row table. -/
theorem claim_C3_witness :
    ((MortalityTable.init (consecAges 20 2) ([1/10, 1/5] : List ℚ)).bind
      (fun mt => (SurvivalFunctions.mk mt (1/20)).npx 20 7)).toOption.isSome = true ∧
    ((MortalityTable.init (consecAges 20 2) ([1/10, 1/5] : List ℚ)).bind
      (fun mt => (SurvivalFunctions.mk mt (1/20)).nqx 20 7)).toOption.isSome = true ∧
    (((MortalityTable.init (consecAges 20 2) ([1/10, 1/5] : List ℚ)).bind
      (fun mt => (SurvivalFunctions.mk mt (1/20)).tpx Real.exp Real.log 20
        (5/2))).toOption).isSome = true ∧
    ((MortalityTable.init (consecAges 20 2) ([1/10, 1/5] : List ℚ)).bind
      (fun mt => (SurvivalFunctions.mk mt (1/20)).annuity_due Real.exp Real.log 20
        (some 3))).toOption.isSome = true ∧
    ((MortalityTable.init (consecAges 20 2) ([1/10, 1/5] : List ℚ)).bind
      (fun mt => (SurvivalFunctions.mk mt (1/20)).annuity_immediate Real.exp Real.log 20
        none)).toOption.isSome = true ∧
    ((MortalityTable.init (consecAges 20 2) ([1/10, 1/5] : List ℚ)).bind
      (fun mt => (SurvivalFunctions.mk mt (1/20)).assurance 20 none)).toOption.isSome
        = true ∧
    (((MortalityTable.init (consecAges 20 2) ([1/10, 1/5] : List ℚ)).bind
      (fun mt => (SurvivalFunctions.mk mt (1/20)).net_single_premium 20
        (some 4))).toOption).isSome = true := by
  have h0 := init_ok_of_valid (consecAges 20 2)
      (([1/10, 1/5] : List ℚ))
    (by rw [consecAges_length]; rfl) (by norm_num) (by simp)
  have hmem : (20 : ℤ) ∈ consecAges 20 2 := by
    rw [mem_consecAges]
    norm_num
  have hx : (20 : ℤ) ∈ (MortalityTable.mk (consecAges 20 2) [1/10, 1/5]
      (pxOf [1/10, 1/5]) (lxOf (pxOf [1/10, 1/5]))
      (List.zipWith (fun a b => a * b) (lxOf (pxOf [1/10, 1/5])) [1/10, 1/5])).ages :=
    hmem
  have base := claim_C3_amended 20 2 [1/10, 1/5] _ (1/20) h0 (by norm_num) 20 hx
  obtain ⟨⟨w1, e1⟩, _, _, _, _, _, _⟩ := base 7 (some 3) (5/2)
  obtain ⟨_, ⟨w2, e2⟩, _, _, _, _, _⟩ := base 7 (some 3) (5/2)
  obtain ⟨_, _, ⟨w3, e3⟩, _, _, _, _⟩ := base 7 (some 3) (5/2)
  obtain ⟨_, _, _, ⟨w4, e4⟩, _, _, _⟩ := base 7 (some 3) (5/2)
  obtain ⟨_, _, _, _, ⟨w5, e5⟩, _, _⟩ := base 7 none (5/2)
  obtain ⟨_, _, _, _, _, ⟨w6, e6⟩, _⟩ := base 7 none (5/2)
  obtain ⟨_, _, _, _, _, _, ⟨w7, e7⟩⟩ := base 7 (some 4) (5/2)
  rw [h0]
  simp only [Except.bind]
  refine ⟨?_, ?_, ?_, ?_, ?_, ?_, ?_⟩
  · rw [e1]; rfl
  · rw [e2]; rfl
  · rw [e3]; rfl
  · rw [e4]; rfl
  · rw [e5]; rfl
  · rw [e6]; rfl
  · rw [e7]; rfl

/-- C8: for a constructed table, tabulated `x` and float `t`:
`tpx(x, 0) = 1.0`; `tpx(x, t) = 0.0` for `t < 0`; otherwise with `n = ⌊t⌋`
and `frac = t - n`, `tpx(x, t) = npx(x,n) * (1 - frac * qx(x+n))` when
`x + n` is strictly inside the table (`NaN` propagating if `x+n` is
untabulated), and `tpx(x, t) = npx(x,n) * exp(-mu * remaining)` with
`mu = -ln(1 - qx(last_age))` and `remaining = t - (last_age - x)` when
`x + n` is at or beyond the table's last age. -/
theorem claim_C8 (ages : List ℤ) (qx : List ℚ) (mt : MortalityTable) (r : ℚ)
    (hinit : MortalityTable.init ages qx = .ok mt)
    (x : ℤ) (hx : x ∈ mt.ages) (t : ℚ) :
    ((SurvivalFunctions.mk mt r).tpx Real.exp Real.log x 0 = .ok (some 1)) ∧
    (t < 0 → (SurvivalFunctions.mk mt r).tpx Real.exp Real.log x t = .ok (some 0)) ∧
    (0 < t →
      (x + ⌊t⌋ < mt.ages.getLastD 0 →
        (SurvivalFunctions.mk mt r).tpx Real.exp Real.log x t =
          .ok ((mt.lookupQx (x + ⌊t⌋)).map (fun (qN : ℚ) =>
            ((npxVal (SurvivalFunctions.mk mt r) x ⌊t⌋ : ℚ) : ℝ) *
              (1 - ((t - ((⌊t⌋ : ℤ) : ℚ) : ℚ) : ℝ) * (qN : ℝ))))) ∧
      (mt.ages.getLastD 0 ≤ x + ⌊t⌋ →
        ∃ qL, mt.lookupQx (mt.ages.getLastD 0) = some qL ∧
          (SurvivalFunctions.mk mt r).tpx Real.exp Real.log x t =
            .ok (some (((npxVal (SurvivalFunctions.mk mt r) x ⌊t⌋ : ℚ) : ℝ) *
              Real.exp (-((-(Real.log (1 - (qL : ℝ)))) *
                ((t - ((mt.ages.getLastD 0 - x : ℤ) : ℚ) : ℚ) : ℝ))))))) := by
  obtain ⟨hA, hQ, hP, hL, hD, hlen, hq, hne⟩ := init_ok_elim hinit
  have hnonempty : mt.ages ≠ [] := by
    rw [hA]
    intro h0
    rw [h0] at hlen
    exact hne (List.eq_nil_of_length_eq_zero hlen.symm)
  have hx' : x ∈ (SurvivalFunctions.mk mt r).mt.ages := hx
  refine ⟨?_, ?_, ?_⟩
  · rw [SurvivalFunctions.tpx, if_pos rfl]
  · intro ht
    rw [SurvivalFunctions.tpx, if_neg (ne_of_lt ht), if_pos ht]
  · intro ht
    have hnpx := npx_eq_ok_npxVal hx' ⌊t⌋
    constructor
    · intro hlt
      rw [SurvivalFunctions.tpx, if_neg (ne_of_gt ht), if_neg (not_lt.mpr (le_of_lt ht))]
      simp only [hnpx, Except.bind]
      rw [if_neg (by omega)]
      rcases hlook : mt.lookupQx (x + ⌊t⌋) with _ | qN
      · rfl
      · rfl
    · intro hge
      have hlastmem : mt.ages.getLastD 0 ∈ mt.ages := getLastD_mem hnonempty
      obtain ⟨ixL, hixL⟩ := firstIdx_isSome_of_mem hlastmem
      refine ⟨mt.qx.getD ixL 0, ?_, ?_⟩
      · rw [MortalityTable.lookupQx, hixL, Option.map_some']
      · rw [SurvivalFunctions.tpx, if_neg (ne_of_gt ht), if_neg (not_lt.mpr (le_of_lt ht))]
        simp only [hnpx, Except.bind]
        rw [if_pos (by omega), if_pos (by omega)]
        rw [show (SurvivalFunctions.mk mt r).mt.lookupQx
            ((SurvivalFunctions.mk mt r).mt.ages.getLastD 0) =
              some (mt.qx.getD ixL 0) from by
          rw [MortalityTable.lookupQx]
          show (firstIdx mt.ages (mt.ages.getLastD 0)).map _ = _
          rw [hixL, Option.map_some']]
        push_cast
        rfl

/-- Witness for C8: `tpx(20, 0) = 1` and `tpx(20, -3) = 0` on the concrete
table `ages = [20, 21]`, `qx = [1/10, 1/5]`, via the theorem applied at that
constructed table with the tabulated age 20. -/
theorem claim_C8_witness :
    ((SurvivalFunctions.mk (MortalityTable.mk [20, 21] [1/10, 1/5] (pxOf [1/10, 1/5])
        (lxOf (pxOf [1/10, 1/5]))
        (List.zipWith (fun a b => a * b) (lxOf (pxOf [1/10, 1/5])) [1/10, 1/5]))
      (1/20)).tpx Real.exp Real.log 20 0 = .ok (some 1)) ∧
    ((SurvivalFunctions.mk (MortalityTable.mk [20, 21] [1/10, 1/5] (pxOf [1/10, 1/5])
        (lxOf (pxOf [1/10, 1/5]))
        (List.zipWith (fun a b => a * b) (lxOf (pxOf [1/10, 1/5])) [1/10, 1/5]))
      (1/20)).tpx Real.exp Real.log 20 (-3) = .ok (some 0)) := by
  have h0 := init_ok_of_valid ([20, 21])
      (([1/10, 1/5] : List ℚ))
    (by norm_num) (by norm_num) (by simp)
  have base := claim_C8 [20, 21] [1/10, 1/5]
    (MortalityTable.mk [20, 21] [1/10, 1/5] (pxOf [1/10, 1/5]) (lxOf (pxOf [1/10, 1/5]))
      (List.zipWith (fun a b => a * b) (lxOf (pxOf [1/10, 1/5])) [1/10, 1/5]))
    (1/20) h0 20 (by decide)
  exact ⟨(base 0).1, (base (-3)).2.1 (by norm_num)⟩

end Actuneo
